import Mathlib

/-!
Verification of the `dirtree` directory-tree lister.

The definitions below are a shallow embedding of the C sources
`src/dirtree.c` and `src/src/dirtree.c` (two near-identical copies of the
same program).  C strings are modelled as `List Char`, machine integers as
`Nat` reduced modulo `2 ^ 32` (`unsigned int`) or `2 ^ 64`
(`unsigned long long`) where the source can overflow, and fallible calls
return `Option`/`Except`.
-/

namespace Dirtree

/-- Output control flag bit `F_TREE` (0x1) from the source. -/
def F_TREE : Nat := 1

/-- Output control flag bit `F_SUMMARY` (0x2) from the source. -/
def F_SUMMARY : Nat := 2

/-- Output control flag bit `F_VERBOSE` (0x4) from the source. -/
def F_VERBOSE : Nat := 4

/-- `MAX_DIR`: maximum number of supported root directories. -/
def MAX_DIR : Nat := 64

/-- The ASCII backquote character (code 96), used by the source as the
corner ("last branch") glyph in tree mode. -/
def corner : Char := Char.ofNat 96

/-- `gen_tree_shape(is_last, flags, pstr)` from the source: builds the
child prefix from the parent prefix `pstr`.  In tree mode it copies
`pstr`, and when `strlen(pstr) > 1` it blanks the character at index
`len-2` if it is the corner glyph and unconditionally blanks the one at
`len-1`, then appends the branch glyph (corner if last sibling, vertical
bar otherwise) and the horizontal connector.  Outside tree mode it
appends two spaces. -/
def gen_tree_shape (is_last : Bool) (flags : Nat) (pstr : List Char) : List Char :=
  if flags &&& F_TREE ≠ 0 then
    (if 1 < pstr.length then
      (if pstr.getD (pstr.length - 2) ' ' = corner
       then (pstr.set (pstr.length - 2) ' ').set (pstr.length - 1) ' '
       else pstr.set (pstr.length - 1) ' ')
     else pstr) ++ [(if is_last then corner else '|'), '-']
  else pstr ++ [' ', ' ']

/-- The `nextPrefix` operation as the specification words it: with tree
mode off, parent prefix plus two spaces; with tree mode on, the parent
prefix with (only when its length exceeds 1) its last-but-one character
replaced by a space when it is the corner glyph and its last character
replaced by a space, followed by the branch glyph for this entry and a
horizontal connector; no adjustment of prior glyphs when the length is at
most 1. -/
def nextPstrSpec (isLast : Bool) (treeMode : Bool) (p : List Char) : List Char :=
  if treeMode then
    if p.length ≤ 1 then p ++ [(if isLast then corner else '|'), '-']
    else
      (if p.dropLast.getLast? = some corner
       then p.dropLast.dropLast ++ [' ']
       else p.dropLast) ++ [' ', (if isLast then corner else '|'), '-']
  else p ++ [' ', ' ']

/- Helper lemmas about list surgery at the end of a list. -/

theorem set_append_last_two (q : List Char) (a b x : Char) :
    (q ++ [a, b]).set q.length x = q ++ [x, b] := by
  induction q with
  | nil => rfl
  | cons h t ih => simp [List.set, ih]

theorem set_append_snd (q : List Char) (a b x : Char) :
    (q ++ [a, b]).set (q.length + 1) x = q ++ [a, x] := by
  induction q with
  | nil => rfl
  | cons h t ih => simp [List.set, ih]

theorem getD_append_last_two (q : List Char) (a b x : Char) :
    (q ++ [a, b]).getD q.length x = a := by
  induction q with
  | nil => rfl
  | cons h t ih => simpa [List.getD] using ih

theorem dropLast_append_last_two (q : List Char) (a b : Char) :
    (q ++ [a, b]).dropLast = q ++ [a] := by
  have : q ++ [a, b] = (q ++ [a]) ++ [b] := by simp
  rw [this, List.dropLast_concat]

theorem getLast?_append_one (q : List Char) (a : Char) :
    (q ++ [a]).getLast? = some a := by
  simp [List.getLast?_concat]

/-- Evaluation of `gen_tree_shape` in tree mode on a prefix of length at
least two, written as `q ++ [a, b]`. -/
theorem gen_tree_shape_tree_long (il : Bool) (fl : Nat) (ht : fl &&& F_TREE ≠ 0)
    (q : List Char) (a b : Char) :
    gen_tree_shape il fl (q ++ [a, b]) =
      (if a = corner then q ++ [' ', ' '] else q ++ [a, ' ']) ++
        [(if il then corner else '|'), '-'] := by
  have hlen : (q ++ [a, b]).length = q.length + 2 := by simp
  have h2 : (q ++ [a, b]).length - 2 = q.length := by omega
  have h1 : (q ++ [a, b]).length - 1 = q.length + 1 := by omega
  unfold gen_tree_shape
  rw [if_pos ht, if_pos (show 1 < (q ++ [a, b]).length by simp), h1, h2,
    getD_append_last_two]
  by_cases hc : a = corner
  · simp only [if_pos hc, set_append_last_two, set_append_snd]
  · simp only [if_neg hc, set_append_snd]

theorem nextPstrSpec_tree_long (il : Bool) (q : List Char) (a b : Char) :
    nextPstrSpec il true (q ++ [a, b]) =
      (if a = corner then q ++ [' '] else q ++ [a]) ++
        [' ', (if il then corner else '|'), '-'] := by
  unfold nextPstrSpec
  rw [if_pos rfl, if_neg (show ¬(q ++ [a, b]).length ≤ 1 by simp),
    dropLast_append_last_two, getLast?_append_one]
  by_cases hc : a = corner
  · simp only [hc, if_pos rfl, List.dropLast_concat]
  · simp only [if_neg hc, if_neg (show ¬(some a = some corner) by simpa using hc)]

/-- **C4**: for every parent prefix `p`, `gen_tree_shape` computes exactly
the `nextPrefix` of the specification: with tree mode off, `p` plus two
spaces; with tree mode on and `p` longer than 1, `p` with its
last-but-one character blanked when it is the corner glyph and its last
character blanked, then the branch glyph (corner iff last sibling) and
the horizontal connector; with `p` of length at most 1, no adjustment of
prior glyphs. -/
theorem gen_tree_shape_eq_spec (il : Bool) (fl : Nat) (p : List Char) :
    gen_tree_shape il fl p = nextPstrSpec il (decide (fl &&& F_TREE ≠ 0)) p := by
  by_cases ht : fl &&& F_TREE ≠ 0
  · rw [decide_eq_true ht]
    by_cases hlen : 1 < p.length
    · obtain rfl | ⟨r, b, rfl⟩ := p.eq_nil_or_concat
      · simp at hlen
      · obtain rfl | ⟨q, a, rfl⟩ := r.eq_nil_or_concat
        · simp at hlen
        · have hp : (q.concat a).concat b = q ++ [a, b] := by simp
          rw [hp, gen_tree_shape_tree_long il fl ht, nextPstrSpec_tree_long]
          by_cases hc : a = corner
          · simp [hc]
          · simp [hc]
    · unfold gen_tree_shape nextPstrSpec
      rw [if_pos ht, if_neg hlen, if_pos rfl,
        if_pos (show p.length ≤ 1 by omega)]
  · rw [decide_eq_false ht]
    unfold gen_tree_shape nextPstrSpec
    rw [if_neg ht, if_neg Bool.false_ne_true]

/-- The prefix handed to the children of an entry at depth `bs.length`
below a traversal root: `processDir` starts from the empty prefix `""`
and, one level per recursion, replaces it by `gen_tree_shape` of the
current entry's `is_last` flag.  `bs` records the `is_last` flags of the
ancestor chain. -/
def pstrChain (flags : Nat) (bs : List Bool) : List Char :=
  bs.foldl (fun p b => gen_tree_shape b flags p) []

theorem gen_tree_shape_length (is_last : Bool) (flags : Nat) (pstr : List Char) :
    (gen_tree_shape is_last flags pstr).length = pstr.length + 2 := by
  unfold gen_tree_shape
  by_cases ht : flags &&& F_TREE ≠ 0
  · rw [if_pos ht]
    by_cases hlen : 1 < pstr.length
    · rw [if_pos hlen]
      by_cases hc : pstr.getD (pstr.length - 2) ' ' = corner
      · rw [if_pos hc]; simp
      · rw [if_neg hc]; simp
    · rw [if_neg hlen]; simp
  · rw [if_neg ht]; simp

theorem pstrChain_aux (flags : Nat) (bs : List Bool) :
    ∀ p : List Char,
      (bs.foldl (fun p b => gen_tree_shape b flags p) p).length =
        p.length + 2 * bs.length := by
  induction bs with
  | nil => intro p; simp
  | cons b t ih =>
    intro p
    simp only [List.foldl_cons, List.length_cons, ih, gen_tree_shape_length]
    omega

/-- **C10**: in both rendering modes the child prefix produced by
`gen_tree_shape` is exactly two characters longer than the parent
prefix, and consequently the prefix reached after descending through any
ancestor chain `bs` (starting from the root's empty prefix) has length
exactly `2 * depth`. -/
theorem prefix_length_invariant (is_last : Bool) (flags : Nat) (pstr : List Char)
    (bs : List Bool) :
    (gen_tree_shape is_last flags pstr).length = pstr.length + 2 ∧
    (pstrChain flags bs).length = 2 * bs.length := by
  refine ⟨gen_tree_shape_length is_last flags pstr, ?_⟩
  simpa using pstrChain_aux flags bs []

/-- The ellipsis marker appended after a truncated name field. -/
def ELLIPSIS : List Char := ['.', '.', '.']

/-- Model of the C format `%-51.51s`: truncate to at most 51 characters,
then left-justify in a field of width 51. -/
def fmt_51_51 (s : List Char) : List Char :=
  s.take 51 ++ List.replicate (51 - (s.take 51).length) ' '

/-- Model of the C format `%-54s`: left-justify in a field of width 54
(no truncation). -/
def fmt_54 (s : List Char) : List Char :=
  s ++ List.replicate (54 - s.length) ' '

/-- The name-column printing step of `processDir`
(`if((flags & F_VERBOSE) && strlen(final_pstr) > 54)
printf("%-51.51s...", final_pstr); else printf("%-54s", final_pstr);`):
`s` is the already concatenated prefix+name string. -/
def render_name (flags : Nat) (s : List Char) : List Char :=
  if flags &&& F_VERBOSE ≠ 0 ∧ 54 < s.length
  then fmt_51_51 s ++ ELLIPSIS
  else fmt_54 s

/-- **C5**: in verbose mode the printed name field always occupies
exactly 54 columns: an overlong prefix+name string is cut to its first
51 characters plus the three-character ellipsis marker, a fitting one is
padded with spaces to exactly 54 columns. -/
theorem render_name_column_budget (flags : Nat) (s : List Char)
    (hv : flags &&& F_VERBOSE ≠ 0) :
    (render_name flags s).length = 54 ∧
    (54 < s.length → render_name flags s = s.take 51 ++ ELLIPSIS) ∧
    (s.length ≤ 54 → render_name flags s = s ++ List.replicate (54 - s.length) ' ') := by
  refine ⟨?_, ?_, ?_⟩
  · unfold render_name
    by_cases hl : 54 < s.length
    · rw [if_pos ⟨hv, hl⟩]
      have h51 : (s.take 51).length = 51 := by simp; omega
      simp [fmt_51_51, ELLIPSIS, h51]
    · rw [if_neg (by tauto)]
      simp [fmt_54]; omega
  · intro hl
    rw [render_name, if_pos ⟨hv, hl⟩]
    have h51 : (s.take 51).length = 51 := by simp; omega
    simp [fmt_51_51, h51]
  · intro hl
    rw [render_name, if_neg (by omega)]
    rfl

/-- Witness for `render_name_column_budget` at a concrete verbose run
and a 60-character name. -/
theorem render_name_column_budget_witness :
    (render_name 4 (List.replicate 60 'a')).length = 54 ∧
    (54 < (List.replicate 60 'a').length →
      render_name 4 (List.replicate 60 'a') = (List.replicate 60 'a').take 51 ++ ELLIPSIS) ∧
    ((List.replicate 60 'a').length ≤ 54 →
      render_name 4 (List.replicate 60 'a') =
        List.replicate 60 'a' ++ List.replicate (54 - (List.replicate 60 'a').length) ' ') :=
  render_name_column_budget 4 (List.replicate 60 'a') (by decide)

/-- The coarse file kinds distinguished by the `S_IS*` tests of the
source (`st_mode` file-type bits; `other` stands for any unrecognized
mode). -/
inductive Kind where
  | reg | dir | chr | lnk | fifo | blk | sock | other
deriving DecidableEq, Repr

/-- `S_ISREG` on the modelled kind. -/
def S_ISREG : Kind → Bool | .reg => true | _ => false

/-- `S_ISDIR` on the modelled kind. -/
def S_ISDIR : Kind → Bool | .dir => true | _ => false

/-- `S_ISCHR` on the modelled kind. -/
def S_ISCHR : Kind → Bool | .chr => true | _ => false

/-- `S_ISLNK` on the modelled kind. -/
def S_ISLNK : Kind → Bool | .lnk => true | _ => false

/-- `S_ISFIFO` on the modelled kind. -/
def S_ISFIFO : Kind → Bool | .fifo => true | _ => false

/-- `S_ISBLK` on the modelled kind. -/
def S_ISBLK : Kind → Bool | .blk => true | _ => false

/-- `S_ISSOCK` on the modelled kind. -/
def S_ISSOCK : Kind → Bool | .sock => true | _ => false

/-- The metadata of one entry as delivered by `lstat`: its kind,
`st_size` and `st_blocks`. -/
structure Metadata where
  kind : Kind
  size : Nat
  blocks : Nat
deriving DecidableEq, Repr

/-- `struct summary` from the source.  The counter fields are C
`unsigned int`, the totals `unsigned long long`; arithmetic on them is
reduced modulo `U32` resp. `U64`. -/
structure Summary where
  dirs : Nat
  files : Nat
  links : Nat
  fifos : Nat
  socks : Nat
  size : Nat
  blocks : Nat
deriving DecidableEq, Repr

/-- `2 ^ 32`, the modulus of C `unsigned int` arithmetic. -/
def U32 : Nat := 2 ^ 32

/-- `2 ^ 64`, the modulus of C `unsigned long long` arithmetic. -/
def U64 : Nat := 2 ^ 64

/-- `update_stats` from the source: adds each `S_IS*` test result (0 or
1) to the matching counter and unconditionally adds `st_size` and
`st_blocks` to the running totals. -/
def update_stats (stats : Summary) (i_stat : Metadata) : Summary :=
  { files := (stats.files + (S_ISREG i_stat.kind).toNat) % U32
    dirs := (stats.dirs + (S_ISDIR i_stat.kind).toNat) % U32
    links := (stats.links + (S_ISLNK i_stat.kind).toNat) % U32
    fifos := (stats.fifos + (S_ISFIFO i_stat.kind).toNat) % U32
    socks := (stats.socks + (S_ISSOCK i_stat.kind).toNat) % U32
    size := (stats.size + i_stat.size) % U64
    blocks := (stats.blocks + i_stat.blocks) % U64 }

/-- The five tracked counters of a summary, in the order
files, directories, links, fifos, sockets. -/
def counters (s : Summary) : List Nat :=
  [s.files, s.dirs, s.links, s.fifos, s.socks]

/-- Which of the five tracked counters a kind belongs to (position in
`counters`); `none` for kinds that are not separately counted
(character devices, block devices, unrecognized kinds). -/
def trackedSlot : Kind → Option Nat
  | .reg => some 0
  | .dir => some 1
  | .lnk => some 2
  | .fifo => some 3
  | .sock => some 4
  | _ => none

/-- **C7**: one `update_stats` fold adds the entry's size and block
count to the running totals unconditionally, and — on the counters —
increments exactly the single counter matching the entry's kind when the
kind is one of the five tracked ones, and none of the five otherwise.
The hypotheses record that the incoming counters are machine
`unsigned int` values (below `2 ^ 32`). -/
theorem update_stats_fold (stats : Summary) (m : Metadata)
    (h1 : stats.files < U32) (h2 : stats.dirs < U32) (h3 : stats.links < U32)
    (h4 : stats.fifos < U32) (h5 : stats.socks < U32) :
    (update_stats stats m).size = (stats.size + m.size) % U64 ∧
    (update_stats stats m).blocks = (stats.blocks + m.blocks) % U64 ∧
    counters (update_stats stats m) =
      (match trackedSlot m.kind with
       | none => counters stats
       | some i => (counters stats).set i (((counters stats).getD i 0 + 1) % U32)) := by
  refine ⟨rfl, rfl, ?_⟩
  obtain ⟨k, sz, bl⟩ := m
  cases k <;>
    simp [counters, update_stats, trackedSlot, S_ISREG, S_ISDIR, S_ISLNK,
      S_ISFIFO, S_ISSOCK, List.set, List.getD, Nat.mod_eq_of_lt h1,
      Nat.mod_eq_of_lt h2, Nat.mod_eq_of_lt h3, Nat.mod_eq_of_lt h4,
      Nat.mod_eq_of_lt h5]

/-- Witness for `update_stats_fold`: folding a 10-byte, 8-block regular
file into the zero summary. -/
theorem update_stats_fold_witness :
    (update_stats ⟨0, 0, 0, 0, 0, 0, 0⟩ ⟨Kind.reg, 10, 8⟩).size = (0 + 10) % U64 ∧
    (update_stats ⟨0, 0, 0, 0, 0, 0, 0⟩ ⟨Kind.reg, 10, 8⟩).blocks = (0 + 8) % U64 ∧
    counters (update_stats ⟨0, 0, 0, 0, 0, 0, 0⟩ ⟨Kind.reg, 10, 8⟩) =
      (match trackedSlot Kind.reg with
       | none => counters ⟨0, 0, 0, 0, 0, 0, 0⟩
       | some i => (counters ⟨0, 0, 0, 0, 0, 0, 0⟩).set i
           (((counters ⟨0, 0, 0, 0, 0, 0, 0⟩).getD i 0 + 1) % U32)) :=
  update_stats_fold ⟨0, 0, 0, 0, 0, 0, 0⟩ ⟨Kind.reg, 10, 8⟩
    (by norm_num [U32]) (by norm_num [U32]) (by norm_num [U32])
    (by norm_num [U32]) (by norm_num [U32])

/-- Decidable equality for `Except` results, used to evaluate the parser
on concrete command lines. -/
instance {e a : Type} [DecidableEq e] [DecidableEq a] : DecidableEq (Except e a)
  | Except.ok x, Except.ok y =>
      if h : x = y then Decidable.isTrue (by rw [h])
      else Decidable.isFalse (by simp [h])
  | Except.error x, Except.error y =>
      if h : x = y then Decidable.isTrue (by rw [h])
      else Decidable.isFalse (by simp [h])
  | Except.ok _, Except.error _ => Decidable.isFalse (by simp)
  | Except.error _, Except.ok _ => Decidable.isFalse (by simp)

/-- The option string `-t`. -/
def OPT_T : List Char := ['-', 't']

/-- The option string `-s`. -/
def OPT_S : List Char := ['-', 's']

/-- The option string `-v`. -/
def OPT_V : List Char := ['-', 'v']

/-- The option string `-h`. -/
def OPT_H : List Char := ['-', 'h']

/-- `argv[i][0] == '-'`: whether an argument is treated as an option. -/
def starts_dash (a : List Char) : Bool :=
  match a with
  | [] => false
  | c :: _ => if c = '-' then true else false

/-- The argument-parsing loop of `main`: an argument starting with `-`
must be one of `-t`, `-s`, `-v` (which set the matching flag bit) —
`-h` and any other dash option call `syntax()`, which terminates the
process with failure (modelled as `Except.error`).  Any other argument
is a root directory: appended to `dirs` while fewer than `MAX_DIR` roots
were collected, otherwise ignored with a warning line printed to
standard output (modelled by recording the ignored argument in `ws`). -/
def parse_args : List (List Char) → Nat → List (List Char) → List (List Char) →
    Except String (Nat × List (List Char) × List (List Char))
  | [], fl, dirs, ws => Except.ok (fl, dirs, ws)
  | a :: rest, fl, dirs, ws =>
    if starts_dash a then
      if a = OPT_T then parse_args rest (fl ||| F_TREE) dirs ws
      else if a = OPT_S then parse_args rest (fl ||| F_SUMMARY) dirs ws
      else if a = OPT_V then parse_args rest (fl ||| F_VERBOSE) dirs ws
      else if a = OPT_H then Except.error "help"
      else Except.error "unrecognized option"
    else
      if dirs.length < MAX_DIR then parse_args rest fl (dirs ++ [a]) ws
      else parse_args rest fl dirs (ws ++ [a])

/-- **C2**: the `-v` command line sets only `F_VERBOSE`; since
`gen_tree_shape` tests only `F_TREE`, a verbose-only run renders plain
two-space indentation and no branch glyphs — contradicting the
program's own usage text (`-v … Turns on tree view.`).  Glyphs appear
only when `F_TREE` itself is set. -/
theorem verbose_does_not_enable_tree_glyphs :
    parse_args [OPT_V] 0 [] [] = Except.ok (F_VERBOSE, [], []) ∧
    F_VERBOSE &&& F_TREE = 0 ∧
    gen_tree_shape true F_VERBOSE [] = [' ', ' '] ∧
    gen_tree_shape false F_VERBOSE [] = [' ', ' '] ∧
    gen_tree_shape true (F_TREE ||| F_VERBOSE) [] = [corner, '-'] :=
  ⟨by decide, by decide, by decide, by decide, by decide⟩

theorem parse_args_go (args : List (List Char)) :
    ∀ (fl : Nat) (dirs ws : List (List Char)),
      (∀ a ∈ args, starts_dash a = true → a = OPT_T ∨ a = OPT_S ∨ a = OPT_V) →
      dirs.length ≤ MAX_DIR →
      ∃ flf, parse_args args fl dirs ws =
        Except.ok (flf,
          dirs ++ ((args.filter fun a => !starts_dash a).take (MAX_DIR - dirs.length)),
          ws ++ ((args.filter fun a => !starts_dash a).drop (MAX_DIR - dirs.length))) := by
  induction args with
  | nil => intro fl dirs ws _ _; exact ⟨fl, by simp [parse_args]⟩
  | cons a rest ih =>
    intro fl dirs ws h hd
    have hrest : ∀ b ∈ rest, starts_dash b = true → b = OPT_T ∨ b = OPT_S ∨ b = OPT_V :=
      fun b hb => h b (List.mem_cons_of_mem a hb)
    by_cases hs : starts_dash a = true
    · have hfil : (a :: rest).filter (fun x => !starts_dash x) =
          rest.filter (fun x => !starts_dash x) := by
        simp [List.filter, hs]
      rcases h a (List.mem_cons_self a rest) hs with h1 | h1 | h1 <;> subst h1 <;>
        · rw [hfil]
          obtain ⟨flf, hres⟩ := ih _ dirs ws hrest hd
          exact ⟨flf, by rw [parse_args, if_pos hs]; simpa [OPT_T, OPT_S, OPT_V] using hres⟩
    · have hfil : (a :: rest).filter (fun x => !starts_dash x) =
          a :: rest.filter (fun x => !starts_dash x) := by
        simp [List.filter, hs]
      rw [hfil]
      by_cases hlt : dirs.length < MAX_DIR
      · obtain ⟨flf, hres⟩ := ih fl (dirs ++ [a]) ws hrest (by simp; omega)
        refine ⟨flf, ?_⟩
        rw [parse_args, if_neg (by simpa using hs), if_pos hlt, hres]
        have hn : MAX_DIR - dirs.length = (MAX_DIR - (dirs ++ [a]).length) + 1 := by
          simp; omega
        rw [hn, List.take_succ_cons, List.drop_succ_cons]
        simp
      · have heq : MAX_DIR - dirs.length = 0 := by omega
        obtain ⟨flf, hres⟩ := ih fl dirs (ws ++ [a]) hrest hd
        refine ⟨flf, ?_⟩
        rw [parse_args, if_neg (by simpa using hs), if_neg hlt, hres, heq]
        simp

/-- Whether the argument loop completes without terminating the
process. -/
def parse_ok (args : List (List Char)) : Bool :=
  match parse_args args 0 [] [] with
  | Except.ok _ => true
  | Except.error _ => false

/-- The root directories collected by the argument loop. -/
def parsed_dirs (args : List (List Char)) : List (List Char) :=
  match parse_args args 0 [] [] with
  | Except.ok (_, d, _) => d
  | Except.error _ => []

/-- The roots ignored with a warning by the argument loop. -/
def parsed_warns (args : List (List Char)) : List (List Char) :=
  match parse_args args 0 [] [] with
  | Except.ok (_, _, w) => w
  | Except.error _ => []

/-- **C9**: on a command line whose positional (non-dash) arguments
exceed `MAX_DIR = 64`, parsing still completes normally, exactly the
first 64 positional arguments become the traversed roots, and every
excess root is recorded as a printed warning. -/
theorem many_roots_truncated (args : List (List Char))
    (hflags : ∀ a ∈ args, starts_dash a = true → a = OPT_T ∨ a = OPT_S ∨ a = OPT_V)
    (hmany : MAX_DIR < ((args.filter fun a => !starts_dash a).length)) :
    parse_ok args = true ∧
    parsed_dirs args = ((args.filter fun a => !starts_dash a).take MAX_DIR) ∧
    (parsed_dirs args).length = MAX_DIR ∧
    parsed_warns args = ((args.filter fun a => !starts_dash a).drop MAX_DIR) ∧
    (parsed_warns args).length =
      ((args.filter fun a => !starts_dash a).length) - MAX_DIR := by
  obtain ⟨flf, hres⟩ := parse_args_go args 0 [] [] hflags (by simp)
  simp only [Nat.sub_zero, List.length_nil, List.nil_append] at hres
  refine ⟨?_, ?_, ?_, ?_, ?_⟩
  · rw [parse_ok, hres]
  · rw [parsed_dirs, hres]
  · rw [parsed_dirs, hres]
    simp [List.length_take]
    omega
  · rw [parsed_warns, hres]
  · rw [parsed_warns, hres]
    simp [List.length_drop]

/-- Witness for `many_roots_truncated`: 65 copies of the root path `p`. -/
theorem many_roots_truncated_witness :
    parse_ok (List.replicate 65 ['p']) = true ∧
    parsed_dirs (List.replicate 65 ['p']) =
      (((List.replicate 65 ['p']).filter fun a => !starts_dash a).take MAX_DIR) ∧
    (parsed_dirs (List.replicate 65 ['p'])).length = MAX_DIR ∧
    parsed_warns (List.replicate 65 ['p']) =
      (((List.replicate 65 ['p']).filter fun a => !starts_dash a).drop MAX_DIR) ∧
    (parsed_warns (List.replicate 65 ['p'])).length =
      (((List.replicate 65 ['p']).filter fun a => !starts_dash a).length) - MAX_DIR :=
  many_roots_truncated (List.replicate 65 ['p'])
    (by
      intro a ha hs
      rw [List.eq_of_mem_replicate ha] at hs
      exact absurd hs (by decide))
    (by decide)

/-- The zero summary (`memset(&tstat, 0, sizeof(tstat))`, and
`struct summary dstat = {0}`). -/
def summaryZero : Summary := ⟨0, 0, 0, 0, 0, 0, 0⟩

/-- The per-root accumulation step of `main`
(`tstat.files += dstat.files; ...`): field-wise addition in machine
arithmetic. -/
def combine (t d : Summary) : Summary :=
  { dirs := (t.dirs + d.dirs) % U32
    files := (t.files + d.files) % U32
    links := (t.links + d.links) % U32
    fifos := (t.fifos + d.fifos) % U32
    socks := (t.socks + d.socks) % U32
    size := (t.size + d.size) % U64
    blocks := (t.blocks + d.blocks) % U64 }

/-- The grand total `tstat` after the root loop of `main`: `ds` is the
list of per-root summaries (one `dstat` per traversed root, in order);
the loop folds each into `tstat` only when `F_SUMMARY` is set. -/
def driver_tstat (flags : Nat) (ds : List Summary) : Summary :=
  ds.foldl (fun t d => if flags &&& F_SUMMARY ≠ 0 then combine t d else t) summaryZero

/-- Whether `main` prints the grand-total block:
`(flags & F_SUMMARY) && (ndir > 1)`. -/
def grand_total_printed (flags : Nat) (ndir : Nat) : Bool :=
  decide (flags &&& F_SUMMARY ≠ 0) && decide (1 < ndir)

/-- The field-wise sum of a list of summaries, as the specification
words the grand total (in machine arithmetic). -/
def fieldwiseSum (ds : List Summary) : Summary :=
  { dirs := ((ds.map (·.dirs)).sum) % U32
    files := ((ds.map (·.files)).sum) % U32
    links := ((ds.map (·.links)).sum) % U32
    fifos := ((ds.map (·.fifos)).sum) % U32
    socks := ((ds.map (·.socks)).sum) % U32
    size := ((ds.map (·.size)).sum) % U64
    blocks := ((ds.map (·.blocks)).sum) % U64 }

theorem foldl_combine_eq (ds : List Summary) :
    ∀ t : Summary, t.dirs < U32 → t.files < U32 → t.links < U32 →
      t.fifos < U32 → t.socks < U32 → t.size < U64 → t.blocks < U64 →
      ds.foldl combine t =
        { dirs := (t.dirs + (ds.map (·.dirs)).sum) % U32
          files := (t.files + (ds.map (·.files)).sum) % U32
          links := (t.links + (ds.map (·.links)).sum) % U32
          fifos := (t.fifos + (ds.map (·.fifos)).sum) % U32
          socks := (t.socks + (ds.map (·.socks)).sum) % U32
          size := (t.size + (ds.map (·.size)).sum) % U64
          blocks := (t.blocks + (ds.map (·.blocks)).sum) % U64 } := by
  induction ds with
  | nil =>
    intro t h1 h2 h3 h4 h5 h6 h7
    simp [Nat.mod_eq_of_lt, h1, h2, h3, h4, h5, h6, h7]
  | cons d rest ih =>
    intro t h1 h2 h3 h4 h5 h6 h7
    rw [List.foldl_cons,
      ih (combine t d) (Nat.mod_lt _ (by norm_num [U32])) (Nat.mod_lt _ (by norm_num [U32]))
        (Nat.mod_lt _ (by norm_num [U32])) (Nat.mod_lt _ (by norm_num [U32]))
        (Nat.mod_lt _ (by norm_num [U32])) (Nat.mod_lt _ (by norm_num [U64]))
        (Nat.mod_lt _ (by norm_num [U64]))]
    simp only [combine, List.map_cons, List.sum_cons, Nat.mod_add_mod,
      Summary.mk.injEq]
    refine ⟨?_, ?_, ?_, ?_, ?_, ?_, ?_⟩ <;> rw [Nat.add_assoc]

/-- **C8**: with the summary flag set, the driver's grand total equals
the field-wise sum of the per-root summaries, and the grand-total block
is printed exactly when more than one root was given. -/
theorem grand_total_correct (flags : Nat) (ndir : Nat) (ds : List Summary)
    (hs : flags &&& F_SUMMARY ≠ 0) :
    driver_tstat flags ds = fieldwiseSum ds ∧
    (grand_total_printed flags ndir = true ↔ 1 < ndir) := by
  constructor
  · have hfold : driver_tstat flags ds = ds.foldl combine summaryZero := by
      unfold driver_tstat
      congr 1
      funext t d
      rw [if_pos hs]
    rw [hfold, foldl_combine_eq ds summaryZero (by norm_num [summaryZero, U32])
      (by norm_num [summaryZero, U32]) (by norm_num [summaryZero, U32])
      (by norm_num [summaryZero, U32]) (by norm_num [summaryZero, U32])
      (by norm_num [summaryZero, U64]) (by norm_num [summaryZero, U64])]
    simp [fieldwiseSum, summaryZero]
  · simp [grand_total_printed, hs]

/-- Witness for `grand_total_correct`: a `-s` run (flags = 2) over two
roots whose summaries are one file of 10 bytes / 8 blocks and one
directory of 4096 bytes / 8 blocks. -/
theorem grand_total_correct_witness :
    driver_tstat 2 [⟨0, 1, 0, 0, 0, 10, 8⟩, ⟨1, 0, 0, 0, 0, 4096, 8⟩] =
      fieldwiseSum [⟨0, 1, 0, 0, 0, 10, 8⟩, ⟨1, 0, 0, 0, 0, 4096, 8⟩] ∧
    (grand_total_printed 2 2 = true ↔ 1 < 2) :=
  grand_total_correct 2 2 [⟨0, 1, 0, 0, 0, 10, 8⟩, ⟨1, 0, 0, 0, 0, 4096, 8⟩]
    (by decide)

/-- `strcmp` on (NUL-free) C strings: the sign of the first differing
byte, `-1`/`0`/`1`; a proper prefix sorts first. -/
def strcmp : List Char → List Char → Int
  | [], [] => 0
  | [], _ :: _ => -1
  | _ :: _, [] => 1
  | a :: as, b :: bs =>
    if a.toNat < b.toNat then -1
    else if b.toNat < a.toNat then 1
    else strcmp as bs

/-- `DT_DIR` from `dirent.h`. -/
def DT_DIR : Nat := 4

/-- The fields of `struct dirent` used by the program: the entry name
and the coarse type tag `d_type`. -/
structure Dirent where
  d_name : List Char
  d_type : Nat
deriving DecidableEq, Repr

/-- `dirent_compare` from the source: if the `d_type`s differ and one of
them is `DT_DIR`, the directory sorts first; otherwise entries compare
by name with `strcmp`. -/
def dirent_compare (e1 e2 : Dirent) : Int :=
  if e1.d_type ≠ e2.d_type then
    if e1.d_type = DT_DIR then -1
    else if e2.d_type = DT_DIR then 1
    else strcmp e1.d_name e2.d_name
  else strcmp e1.d_name e2.d_name

/-- The non-strict order induced by `dirent_compare`, as consumed by
`qsort`. -/
def direntLe (a b : Dirent) : Bool := decide (dirent_compare a b ≤ 0)

/-- The `qsort(dirents, num, sizeof(struct dirent), dirent_compare)`
step, modelled as a sort by `direntLe`. -/
def sortEntries (l : List Dirent) : List Dirent := l.mergeSort direntLe

theorem char_eq_of_toNat_eq {a b : Char} (h : a.toNat = b.toNat) : a = b :=
  Char.ext (UInt32.toNat.inj h)

theorem strcmp_eq_zero : ∀ a b : List Char, strcmp a b = 0 → a = b
  | [], [], _ => rfl
  | [], _ :: _, h => by simp [strcmp] at h
  | _ :: _, [], h => by simp [strcmp] at h
  | x :: as, y :: bs, h => by
    unfold strcmp at h
    rcases Nat.lt_trichotomy x.toNat y.toNat with e | e | e
    · rw [if_pos e] at h
      exact absurd h (by decide)
    · rw [if_neg (show ¬x.toNat < y.toNat by omega),
        if_neg (show ¬y.toNat < x.toNat by omega)] at h
      rw [char_eq_of_toNat_eq e, strcmp_eq_zero as bs h]
    · rw [if_neg (show ¬x.toNat < y.toNat by omega), if_pos e] at h
      exact absurd h (by decide)

theorem strcmp_antisymm : ∀ a b : List Char, strcmp a b = -strcmp b a
  | [], [] => rfl
  | [], _ :: _ => rfl
  | _ :: _, [] => rfl
  | x :: as, y :: bs => by
    unfold strcmp
    rcases Nat.lt_trichotomy x.toNat y.toNat with h | h | h
    · rw [if_pos h, if_neg (show ¬y.toNat < x.toNat by omega), if_pos h]
    · rw [if_neg (show ¬x.toNat < y.toNat by omega),
        if_neg (show ¬y.toNat < x.toNat by omega),
        if_neg (show ¬y.toNat < x.toNat by omega),
        if_neg (show ¬x.toNat < y.toNat by omega)]
      exact strcmp_antisymm as bs
    · rw [if_neg (show ¬x.toNat < y.toNat by omega), if_pos h, if_pos h]
      decide

theorem strcmp_le_trans : ∀ a b c : List Char,
    strcmp a b ≤ 0 → strcmp b c ≤ 0 → strcmp a c ≤ 0
  | [], _, c, _, _ => by cases c <;> simp [strcmp]
  | _ :: _, [], _, h1, _ => by simp [strcmp] at h1
  | _ :: _, _ :: _, [], _, h2 => by simp [strcmp] at h2
  | x :: as, y :: bs, z :: cs, h1, h2 => by
    unfold strcmp at h1 h2 ⊢
    split_ifs at h1 with e1 e2
    · split_ifs at h2 with f1 f2
      · rw [if_pos (show x.toNat < z.toNat by omega)]; decide
      · exact absurd h2 (by decide)
      · rw [if_pos (show x.toNat < z.toNat by omega)]; decide
    · exact absurd h1 (by decide)
    · split_ifs at h2 with f1 f2
      · rw [if_pos (show x.toNat < z.toNat by omega)]; decide
      · exact absurd h2 (by decide)
      · rw [if_neg (show ¬x.toNat < z.toNat by omega),
          if_neg (show ¬z.toNat < x.toNat by omega)]
        exact strcmp_le_trans as bs cs h1 h2

theorem dirent_compare_eq (a b : Dirent) :
    dirent_compare a b =
      if a.d_type = DT_DIR ∧ b.d_type ≠ DT_DIR then -1
      else if a.d_type ≠ DT_DIR ∧ b.d_type = DT_DIR then 1
      else strcmp a.d_name b.d_name := by
  by_cases pa : a.d_type = DT_DIR <;> by_cases pb : b.d_type = DT_DIR
  · unfold dirent_compare
    rw [if_neg (show ¬a.d_type ≠ b.d_type from fun h => h (pa.trans pb.symm)),
      if_neg (show ¬(a.d_type = DT_DIR ∧ b.d_type ≠ DT_DIR) from fun h => h.2 pb),
      if_neg (show ¬(a.d_type ≠ DT_DIR ∧ b.d_type = DT_DIR) from fun h => h.1 pa)]
  · unfold dirent_compare
    rw [if_pos (show a.d_type ≠ b.d_type from fun h => pb (h.symm.trans pa)),
      if_pos pa,
      if_pos (show a.d_type = DT_DIR ∧ b.d_type ≠ DT_DIR from ⟨pa, pb⟩)]
  · unfold dirent_compare
    rw [if_pos (show a.d_type ≠ b.d_type from fun h => pa (h.trans pb)),
      if_neg pa, if_pos pb,
      if_neg (show ¬(a.d_type = DT_DIR ∧ b.d_type ≠ DT_DIR) from fun h => pa h.1),
      if_pos (show a.d_type ≠ DT_DIR ∧ b.d_type = DT_DIR from ⟨pa, pb⟩)]
  · by_cases ht : a.d_type = b.d_type
    · unfold dirent_compare
      rw [if_neg (show ¬a.d_type ≠ b.d_type from fun h => h ht),
        if_neg (show ¬(a.d_type = DT_DIR ∧ b.d_type ≠ DT_DIR) from fun h => pa h.1),
        if_neg (show ¬(a.d_type ≠ DT_DIR ∧ b.d_type = DT_DIR) from fun h => pb h.2)]
    · unfold dirent_compare
      rw [if_pos ht, if_neg pa, if_neg pb,
        if_neg (show ¬(a.d_type = DT_DIR ∧ b.d_type ≠ DT_DIR) from fun h => pa h.1),
        if_neg (show ¬(a.d_type ≠ DT_DIR ∧ b.d_type = DT_DIR) from fun h => pb h.2)]

theorem dirent_compare_antisymm (a b : Dirent) :
    dirent_compare a b = -dirent_compare b a := by
  rw [dirent_compare_eq, dirent_compare_eq]
  by_cases pa : a.d_type = DT_DIR <;> by_cases pb : b.d_type = DT_DIR <;>
    simp [pa, pb, strcmp_antisymm a.d_name b.d_name]

theorem direntLe_trans (a b c : Dirent) :
    direntLe a b = true → direntLe b c = true → direntLe a c = true := by
  simp only [direntLe, decide_eq_true_eq]
  rw [dirent_compare_eq, dirent_compare_eq, dirent_compare_eq]
  intro h1 h2
  by_cases pa : a.d_type = DT_DIR <;> by_cases pb : b.d_type = DT_DIR <;>
    by_cases pc : c.d_type = DT_DIR <;>
    simp only [pa, pb, pc, ne_eq, not_true_eq_false, not_false_eq_true,
      and_true, and_false, true_and, false_and, if_true, if_false,
      ite_true, ite_false] at h1 h2 ⊢ <;>
    first
      | exact strcmp_le_trans _ _ _ h1 h2
      | omega

theorem direntLe_total (a b : Dirent) :
    direntLe a b = true ∨ direntLe b a = true := by
  simp only [direntLe, decide_eq_true_eq]
  have h := dirent_compare_antisymm a b
  omega

/-- The rendered-order relation of the specification: a child listed
earlier is a directory whenever the later one is (directories strictly
first), and within the same directory-ness names are in byte-wise
order. -/
def sortedRel (x y : Dirent) : Prop :=
  (y.d_type = DT_DIR → x.d_type = DT_DIR) ∧
  ((x.d_type = DT_DIR ↔ y.d_type = DT_DIR) → strcmp x.d_name y.d_name ≤ 0)

instance (x y : Dirent) : Decidable (sortedRel x y) := by
  unfold sortedRel
  infer_instance

theorem direntLe_imp_sortedRel {x y : Dirent} (h : direntLe x y = true) :
    sortedRel x y := by
  simp only [direntLe, decide_eq_true_eq] at h
  rw [dirent_compare_eq] at h
  by_cases px : x.d_type = DT_DIR <;> by_cases py : y.d_type = DT_DIR
  · exact ⟨fun _ => px, fun _ => by simpa [px, py] using h⟩
  · exact ⟨fun hy => absurd hy py, fun hiff => absurd (hiff.mp px) py⟩
  · rw [if_neg (show ¬(x.d_type = DT_DIR ∧ y.d_type ≠ DT_DIR) from fun hh => px hh.1),
      if_pos (show x.d_type ≠ DT_DIR ∧ y.d_type = DT_DIR from ⟨px, py⟩)] at h
    exact absurd h (by decide)
  · exact ⟨fun hy => absurd hy py, fun _ => by simpa [px, py] using h⟩

theorem sortEntries_pairwise (l : List Dirent) :
    (sortEntries l).Pairwise sortedRel := by
  have hs := @List.sorted_mergeSort Dirent direntLe
    (fun a b c => direntLe_trans a b c)
    (fun a b => by
      rcases direntLe_total a b with h | h <;> simp [h]) l
  exact hs.imp fun h => direntLe_imp_sortedRel h

/-- **C3**: the `qsort` comparator is a total order (total,
transitive), two entries compare equal only when their names are
byte-identical, and in the sorted child list every directory entry
precedes every non-directory entry, names in byte-wise order within
each group — at every directory, hence at every depth. -/
theorem children_order (a b c d e : Dirent) (l : List Dirent)
    (h0 : dirent_compare a b = 0)
    (hbc : direntLe b c = true) (hcd : direntLe c d = true) :
    a.d_name = b.d_name ∧
    direntLe b d = true ∧
    (direntLe d e = true ∨ direntLe e d = true) ∧
    (sortEntries l).Pairwise sortedRel := by
  refine ⟨?_, direntLe_trans b c d hbc hcd, direntLe_total d e,
    sortEntries_pairwise l⟩
  rw [dirent_compare_eq] at h0
  by_cases g1 : a.d_type = DT_DIR ∧ b.d_type ≠ DT_DIR
  · rw [if_pos g1] at h0
    exact absurd h0 (by decide)
  · rw [if_neg g1] at h0
    by_cases g2 : a.d_type ≠ DT_DIR ∧ b.d_type = DT_DIR
    · rw [if_pos g2] at h0
      exact absurd h0 (by decide)
    · rw [if_neg g2] at h0
      exact strcmp_eq_zero _ _ h0

/-- Witness for `children_order`: concrete entries (a regular file and
a symlink sharing a name, two more regular files) and a concrete
directory listing of two subdirectories and two files. -/
theorem children_order_witness :
    (Dirent.mk ['x'] 8).d_name = (Dirent.mk ['x'] 10).d_name ∧
    direntLe (Dirent.mk ['x'] 10) (Dirent.mk ['z'] 8) = true ∧
    (direntLe (Dirent.mk ['z'] 8) (Dirent.mk ['q'] 8) = true ∨
      direntLe (Dirent.mk ['q'] 8) (Dirent.mk ['z'] 8) = true) ∧
    (sortEntries [Dirent.mk ['b'] 8, Dirent.mk ['c'] 4,
      Dirent.mk ['a'] 8, Dirent.mk ['a'] 4]).Pairwise sortedRel :=
  children_order (Dirent.mk ['x'] 8) (Dirent.mk ['x'] 10)
    (Dirent.mk ['y'] 8) (Dirent.mk ['z'] 8) (Dirent.mk ['q'] 8)
    [Dirent.mk ['b'] 8, Dirent.mk ['c'] 4, Dirent.mk ['a'] 8, Dirent.mk ['a'] 4]
    (by decide) (by decide) (by decide)

/-- Linux `errno` value `EACCES`. -/
def EACCES : Nat := 13

/-- Linux `errno` value `ENOENT`. -/
def ENOENT : Nat := 2

/-- Linux `errno` value `ENOTDIR`. -/
def ENOTDIR : Nat := 20

/-- Linux `errno` value `ENOMEM`. -/
def ENOMEM : Nat := 12

/-- `print_errno(pstr, flags)` from the source (identical semantics in
both copies), given the current `errno`: for the three recoverable
conditions it prints a single error line prefixed by
`gen_tree_shape(true, flags, pstr)` and returns; for `ENOMEM` and for
any other errno it terminates the process (for the default case after
printing the raw code), modelled as `Except.error`. -/
def print_errno (e : Nat) (pstr : List Char) (flags : Nat) :
    Except Unit (List Char) :=
  if e = EACCES then
    Except.ok (gen_tree_shape true flags pstr ++ "ERROR: Permission denied".data)
  else if e = ENOENT then
    Except.ok (gen_tree_shape true flags pstr ++ "ERROR: No such file or directory".data)
  else if e = ENOTDIR then
    Except.ok (gen_tree_shape true flags pstr ++ "ERROR: Not a directory".data)
  else Except.error ()

/-- What the open step of `processDir` does after `opendir` fails. -/
inductive OpenFailOutcome where
  | ret (lines : List (List Char))
      -- the call printed these lines and returned to its caller
  | fatalExit
      -- the process was terminated
  | nullRead (lines : List (List Char))
      -- the call printed these lines and then proceeded to call
      -- `getNext`, i.e. `readdir`, on the NULL directory handle
deriving DecidableEq, Repr

/-- The `src/dirtree.c` copy of `processDir` at a failed `opendir` with
`errno = e`: `DIR *dir = opendir(dn); if(errno) print_errno(pstr, flags);`
— the handle is never checked for NULL, so after `print_errno` returns
(recoverable errno) control falls through to the collection loop, whose
first action is `getNext(dir)` with `dir == NULL`. -/
def processDirA_onOpenFail (e : Nat) (pstr : List Char) (flags : Nat) :
    OpenFailOutcome :=
  match print_errno e pstr flags with
  | Except.error _ => OpenFailOutcome.fatalExit
  | Except.ok line => OpenFailOutcome.nullRead [line]

/-- The `src/src/dirtree.c` copy of `processDir` at a failed `opendir`:
`if (!dir) { print_errno(pstr, flags); free(new_dn); return; }` — one
error line, then the call returns without enumerating anything and
without touching the statistics. -/
def processDirB_onOpenFail (e : Nat) (pstr : List Char) (flags : Nat) :
    OpenFailOutcome :=
  match print_errno e pstr flags with
  | Except.error _ => OpenFailOutcome.fatalExit
  | Except.ok line => OpenFailOutcome.ret [line]

/-- **C1**: at a permission-denied `opendir` failure the
`src/src/dirtree.c` copy renders exactly one error line (prefixed with
the `is_last = true` tree shape) and returns — the claimed behavior —
but the `src/dirtree.c` copy, after rendering the same line, does not
return: it goes on to read from the NULL directory handle
(`readdir(NULL)`, undefined behavior that aborts the run in practice). -/
theorem open_fail_divergence :
    processDirB_onOpenFail EACCES [] F_TREE =
      OpenFailOutcome.ret
        [gen_tree_shape true F_TREE [] ++ "ERROR: Permission denied".data] ∧
    processDirA_onOpenFail EACCES [] F_TREE =
      OpenFailOutcome.nullRead
        [gen_tree_shape true F_TREE [] ++ "ERROR: Permission denied".data] ∧
    processDirA_onOpenFail ENOMEM [] F_TREE = OpenFailOutcome.fatalExit ∧
    processDirB_onOpenFail ENOMEM [] F_TREE = OpenFailOutcome.fatalExit :=
  ⟨rfl, rfl, rfl, rfl⟩

/-- One `readdir` result inside `getNext`: an entry, or a read failure
(`readdir` returned NULL with `errno` set, upon which `getNext` prints
the error with `perror` and enumeration ends).  A normal end of stream
is the end of the list. -/
inductive ReadResult where
  | ent (d : Dirent)
  | err (e : Nat)
deriving DecidableEq, Repr

/-- The name `"."`. -/
def DOT : List Char := ['.']

/-- The name `".."`. -/
def DOTDOT : List Char := ['.', '.']

/-- The entry-collection loop of `processDir` over the raw `readdir`
stream, via `getNext`: `"."` and `".."` are skipped; a read error ends
the enumeration after `perror` made it visible (second component).
Returns the collected entries in stream order. -/
def collectEntries : List ReadResult → List Dirent × Option Nat
  | [] => ([], none)
  | ReadResult.err e :: _ => ([], some e)
  | ReadResult.ent d :: rest =>
    if d.d_name = DOT ∨ d.d_name = DOTDOT then collectEntries rest
    else
      let r := collectEntries rest
      (d :: r.1, r.2)

/-- Everything the per-entry loop body of `processDir` consumes for one
entry: the entry, its `lstat` metadata, and the `getpwuid`/`getgrgid`
results for its owner and group ids (`none` when unresolvable). -/
structure EntryCtx where
  d : Dirent
  meta : Metadata
  user : Option (List Char)
  group : Option (List Char)
deriving DecidableEq, Repr

/-- Right-justify in a field of `w` columns (printf `%8s`, `%10ld`…). -/
def rightField (w : Nat) (s : List Char) : List Char :=
  List.replicate (w - s.length) ' ' ++ s

/-- Left-justify in a field of `w` columns (printf `%-8s`). -/
def leftField (w : Nat) (s : List Char) : List Char :=
  s ++ List.replicate (w - s.length) ' '

/-- The one-character type code printed by `print_verbose`. -/
def type_char : Kind → Char
  | Kind.reg => ' '
  | Kind.dir => 'd'
  | Kind.chr => 'c'
  | Kind.lnk => 'l'
  | Kind.fifo => 'f'
  | Kind.blk => 'b'
  | Kind.sock => 's'
  | Kind.other => Char.ofNat 0

/-- `print_verbose` from the source:
`printf("  %8s:%-8s  %10ld  %8ld  %c", user, group, size, blocks, type)`;
terminates the process when `getpwuid` or `getgrgid` returned NULL. -/
def print_verbose (c : EntryCtx) : Except Unit (List Char) :=
  match c.user, c.group with
  | some u, some g =>
      Except.ok ([' ', ' '] ++ rightField 8 u ++ [':'] ++ leftField 8 g ++
        [' ', ' '] ++ rightField 10 (Nat.repr c.meta.size).data ++
        [' ', ' '] ++ rightField 8 (Nat.repr c.meta.blocks).data ++
        [' ', ' '] ++ [type_char c.meta.kind])
  | _, _ => Except.error ()

/-- The line printed for one entry by the loop body of `processDir`:
tree shape plus name through the 54-column budget, then the verbose
field when `F_VERBOSE` is set (whose name-resolution failure is
fatal). -/
def entryLine (flags : Nat) (pstr : List Char) (is_last : Bool) (c : EntryCtx) :
    Except Unit (List Char) :=
  if flags &&& F_VERBOSE ≠ 0 then
    match print_verbose c with
    | Except.ok v =>
        Except.ok (render_name flags (gen_tree_shape is_last flags pstr ++ c.d.d_name) ++ v)
    | Except.error _ => Except.error ()
  else Except.ok (render_name flags (gen_tree_shape is_last flags pstr ++ c.d.d_name))

/-- The per-entry loop of `processDir`, restricted to its printing
behavior: one line per collected entry, in order (`is_last` exactly for
the final entry); a fatal condition while printing terminates the whole
process (`Except.error`).  Lines printed by the recursion into
subdirectories are not part of this per-directory model. -/
def renderLoop (flags : Nat) (pstr : List Char) :
    List EntryCtx → Except Unit (List (List Char))
  | [] => Except.ok []
  | c :: rest =>
    match entryLine flags pstr rest.isEmpty c with
    | Except.error _ => Except.error ()
    | Except.ok line =>
      match renderLoop flags pstr rest with
      | Except.error _ => Except.error ()
      | Except.ok lines => Except.ok (line :: lines)

theorem renderLoop_ok_length (flags : Nat) (pstr : List Char) :
    ∀ (ctxs : List EntryCtx) (lines : List (List Char)),
      renderLoop flags pstr ctxs = Except.ok lines → lines.length = ctxs.length
  | [], lines, h => by
    unfold renderLoop at h
    cases h
    rfl
  | c :: rest, lines, h => by
    unfold renderLoop at h
    cases he : entryLine flags pstr rest.isEmpty c with
    | error u => rw [he] at h; exact absurd h (by simp)
    | ok line =>
      rw [he] at h
      cases hr : renderLoop flags pstr rest with
      | error u => rw [hr] at h; exact absurd h (by simp)
      | ok ls =>
        rw [hr] at h
        cases h
        simp [renderLoop_ok_length flags pstr rest ls hr]

theorem collectEntries_err_isSome :
    ∀ (raw : List ReadResult) (e : Nat), ReadResult.err e ∈ raw →
      ((collectEntries raw).2).isSome = true
  | [], e, h => absurd h (by simp)
  | ReadResult.err e2 :: rest, e, _ => by simp [collectEntries]
  | ReadResult.ent d :: rest, e, h => by
    have hm : ReadResult.err e ∈ rest := by
      rcases List.mem_cons.mp h with h1 | h1
      · exact absurd h1 (by simp)
      · exact h1
    unfold collectEntries
    by_cases hd : d.d_name = DOT ∨ d.d_name = DOTDOT
    · rw [if_pos hd]
      exact collectEntries_err_isSome rest e hm
    · rw [if_neg hd]
      exact collectEntries_err_isSome rest e hm

/-- **C6**: however the per-entry contexts are drawn from the collected
entries, a per-directory render that completes (instead of aborting the
process) emits exactly one line per entry returned by the listing step —
no entry is dropped silently — and a mid-enumeration read error is
always made visible. -/
theorem no_silent_drop (flags : Nat) (pstr : List Char) (raw : List ReadResult)
    (f : Dirent → EntryCtx) (lines : List (List Char)) (e : Nat)
    (hok : renderLoop flags pstr ((collectEntries raw).1.map f) = Except.ok lines)
    (herr : ReadResult.err e ∈ raw) :
    lines.length = (collectEntries raw).1.length ∧
    ((collectEntries raw).2).isSome = true := by
  refine ⟨?_, collectEntries_err_isSome raw e herr⟩
  have hl := renderLoop_ok_length flags pstr ((collectEntries raw).1.map f) lines hok
  simpa using hl

/-- Witness for `no_silent_drop`: a stream delivering the entry `a`
(a regular file) and then failing with errno 5 (`EIO`), rendered
without flags. -/
theorem no_silent_drop_witness :
    ([[' ', ' ', 'a'] ++ List.replicate 51 ' ']).length =
      (collectEntries [ReadResult.ent (Dirent.mk ['a'] 8), ReadResult.err 5]).1.length ∧
    ((collectEntries [ReadResult.ent (Dirent.mk ['a'] 8), ReadResult.err 5]).2).isSome = true :=
  no_silent_drop 0 [] [ReadResult.ent (Dirent.mk ['a'] 8), ReadResult.err 5]
    (fun d => EntryCtx.mk d (Metadata.mk Kind.reg 0 0) none none)
    [[' ', ' ', 'a'] ++ List.replicate 51 ' '] 5 (by decide) (by decide)

end Dirtree
